import Mathlib

/-!
Verification of the parameter animation and sequencing engine of the
visual-patterns-rt-tool repository.

The engine is embedded shallowly:

* JavaScript numbers are modelled as exact rationals (`ℚ`);
* the zustand store state relevant to the engine (`currentSettings`,
  `activeAnimations`, the active sequence's `bpm`) is a record;
* the `activeAnimations` `Map` is an association list in insertion order
  (JavaScript `Map` iteration order), with `Map.get`/`Map.set`/`Map.delete`
  modelled by `mapGet`/`mapSet`/`mapDelete`;
* `undefined` is modelled by `Option.none` (a settings entry written with
  `undefined` becomes `none`);
* parameter values (`any`-typed in the source) are a tagged union `Value`
  of numeric scalars, strings and color-stop lists, mirroring the shapes
  the store actually holds;
* the gradient-shader bookkeeping fields (`previousGradient`,
  `previousBackgroundGradient`, `transitionProgress`) are not modelled:
  they feed the renderer only and never flow back into `currentSettings`
  or `activeAnimations`.

Each definition is translated from the corresponding function of
`src/store/slices/animation.slice.ts`, `src/store/slices/sequencer.slice.ts`
and `src/store/utils/helpers.ts`.
-/

/-- `lerp` from `src/store/utils/helpers.ts`: `a * (1 - t) + b * t`. -/
def lerp (a b t : ℚ) : ℚ := a * (1 - t) + b * t

/-- JavaScript `Math.round`: half-up rounding, `⌊x + 1/2⌋`. -/
def jsRound (x : ℚ) : ℤ := ⌊x + 1 / 2⌋

/-- First element of a list satisfying a decidable predicate
(JavaScript `Array.prototype.find`). -/
def findFirst? {α : Type} (p : α → Prop) [DecidablePred p] : List α → Option α
  | [] => none
  | a :: tl => if p a then some a else findFirst? p tl

/-- Elements of a list satisfying a decidable predicate
(JavaScript `Array.prototype.filter`). -/
def filterP {α : Type} (p : α → Prop) [DecidablePred p] : List α → List α
  | [] => []
  | a :: tl => if p a then a :: filterP p tl else filterP p tl

/-- One color stop of a gradient (`GradientColor` in `types.ts`). -/
structure GradientColor where
  id : String
  color : String
  hardStop : Bool
deriving DecidableEq

/-- A parameter value held by the store: a numeric scalar, an opaque
string, or a color-stop list (the `any`-typed values of `ControlSettings`). -/
inductive Value : Type
  | num (q : ℚ)
  | str (s : String)
  | arr (colors : List GradientColor)
deriving DecidableEq

/-- The numeric `ControlSource` enum of `types.ts`; ascending priority. -/
def ControlSource.PatternSequencer : ℕ := 0

def ControlSource.PropertySequencer : ℕ := 1

def ControlSource.UI : ℕ := 2

def ControlSource.MIDI : ℕ := 3

/-- An `AnimationRequest` (`types.ts`): the source stores `from` as the
already-resolved `startValue`; `fromValue` is `none` when `from` was
`undefined`.  `source` is the numeric `ControlSource` value. -/
structure Req where
  property : String
  fromValue : Option Value
  toValue : Value
  steps : ℚ
  source : ℕ
  interpolationType : String
deriving DecidableEq

/-- An `ActiveAnimation` (`types.ts`). -/
structure ActiveAnimation where
  request : Req
  currentFrame : ℕ
  totalFrames : ℕ
  startValue : Option Value
deriving DecidableEq

/-- JavaScript `Map.get` on an association list. -/
def mapGet (m : List (String × ActiveAnimation)) (k : String) :
    Option ActiveAnimation :=
  (findFirst? (fun kv => kv.1 = k) m).map Prod.snd

/-- JavaScript `Map.set` on an association list: update in place when the
key is present, append otherwise. -/
def mapSet : List (String × ActiveAnimation) → String → ActiveAnimation →
    List (String × ActiveAnimation)
  | [], k, v => [(k, v)]
  | kv :: tl, k, v => if kv.1 = k then (k, v) :: tl else kv :: mapSet tl k v

/-- JavaScript `Map.delete` on an association list. -/
def mapDelete (m : List (String × ActiveAnimation)) (k : String) :
    List (String × ActiveAnimation) :=
  filterP (fun kv => ¬ kv.1 = k) m

/-- The engine state: the resolved settings (`currentSettings`), the
arbiter's parameter→animation table (`activeAnimations`), and the active
sequence's `bpm` used to convert steps into frames. -/
structure EngineState where
  currentSettings : String → Option Value
  activeAnimations : List (String × ActiveAnimation)
  bpm : ℚ

/-- Pointwise update of the settings record (`{...currentSettings,
[property]: v}` / `(newSettings as any)[property] = v`). -/
def updateS (f : String → Option Value) (k : String) (v : Option Value) :
    String → Option Value :=
  fun p => if p = k then v else f p

/-- Frames per step derived from the BPM, from `requestPropertyChange`
(`animation.slice.ts` lines 62-68): sixteenth-note resolution, 60 fps. -/
def framesPerStepOf (bpm : ℚ) : ℤ :=
  max 1 (jsRound ((1 / (bpm / 60 * 4)) * 60))

/-- `totalFrames = Math.max(1, Math.round(steps * framesPerStep))`
(`animation.slice.ts` line 69). -/
def totalFramesOf (bpm steps : ℚ) : ℕ :=
  (max 1 (jsRound (steps * framesPerStepOf bpm))).toNat

/-- The `ActiveAnimation` built by `requestPropertyChange` for an animated
(`steps ≠ 0`) request: the stored request carries the resolved
`startValue` as its `from`. -/
def mkAnimation (st : EngineState) (r : Req) : ActiveAnimation :=
  let startValue := (r.fromValue).orElse fun _ => st.currentSettings r.property
  { request := { r with fromValue := startValue }
    currentFrame := 0
    totalFrames := totalFramesOf st.bpm r.steps
    startValue := startValue }

/-- The priority gate of `requestPropertyChange` (`animation.slice.ts`
lines 17-28): a request is ignored when an animation for the property
exists and the new source's priority is strictly lower. -/
def sourceBlocked (st : EngineState) (r : Req) : Bool :=
  match mapGet st.activeAnimations r.property with
  | some e => decide (r.source < e.request.source)
  | none => false

/-- `progress = Math.min(animation.currentFrame / animation.totalFrames, 1)`
computed by `_animationLoop` after the in-place `currentFrame++`
(`animation.slice.ts` lines 155-156); the argument is the pre-increment
animation. -/
def animProgress (a : ActiveAnimation) : ℚ :=
  min (((a.currentFrame : ℚ) + 1) / (a.totalFrames : ℚ)) 1

/-- The in-place `animation.currentFrame++`. -/
def advanceAnim (a : ActiveAnimation) : ActiveAnimation :=
  { a with currentFrame := a.currentFrame + 1 }

/-- The per-animation value written into resolved state by one iteration
of `_animationLoop` (`animation.slice.ts` lines 158-196): linear numeric
pairs are interpolated with `lerp`; array pairs (gradients or not) and
every other shape are set to the target immediately; when the
interpolation type is not `linear` the local `newValue` is never assigned
and `undefined` (`none`) is written. -/
def frameValue (a : ActiveAnimation) : Option Value :=
  if a.request.interpolationType = "linear" then
    match a.request.fromValue, a.request.toValue with
    | some (Value.num x), Value.num y =>
        some (Value.num (lerp x y (animProgress a)))
    | some (Value.arr _), Value.arr _ => some a.request.toValue
    | _, _ => some a.request.toValue
  else none

/-- One synchronous iteration of `_animationLoop` (`animation.slice.ts`
lines 138-238): if the table is empty, return; otherwise write each
animation's frame value into the settings (iterating the Map in insertion
order), increment every `currentFrame` in place, and delete the
animations whose progress reached 1.  The trailing `requestAnimationFrame`
re-invocation is the next call of this function. -/
def animationLoop (st : EngineState) : EngineState :=
  if st.activeAnimations.isEmpty then st
  else
    { st with
      currentSettings :=
        st.activeAnimations.foldl
          (fun acc kv => updateS acc kv.1 (frameValue kv.2))
          st.currentSettings
      activeAnimations :=
        (filterP (fun kv => ¬ 1 ≤ animProgress kv.2)
            st.activeAnimations).map
          (fun kv => (kv.1, advanceAnim kv.2)) }

/-- `requestPropertyChange` (`animation.slice.ts` lines 8-136): the
priority gate runs first; a winning `steps = 0` request deletes any
in-flight animation and writes `toValue` immediately; a winning animated
request stores a fresh `ActiveAnimation`, and when the table was empty
before the call it starts the RAF loop, whose first iteration runs
synchronously. -/
def requestPropertyChange (st : EngineState) (r : Req) : EngineState :=
  if sourceBlocked st r then st
  else if r.steps = 0 then
    { st with
      activeAnimations := mapDelete st.activeAnimations r.property
      currentSettings := updateS st.currentSettings r.property (some r.toValue) }
  else
    let st2 : EngineState :=
      { st with
        activeAnimations := mapSet st.activeAnimations r.property (mkAnimation st r) }
    if st.activeAnimations.isEmpty then animationLoop st2 else st2

/-- `cancelAllAnimations` (`animation.slice.ts` lines 240-246). -/
def cancelAllAnimations (st : EngineState) : EngineState :=
  { st with activeAnimations := [] }

/-- `cancelAnimationForProperty` (`animation.slice.ts` lines 248-257). -/
def cancelAnimationForProperty (st : EngineState) (p : String) : EngineState :=
  { st with activeAnimations := mapDelete st.activeAnimations p }

/-- A sequence of requests submitted to the arbiter, left to right. -/
def applyReqs (st : EngineState) (rs : List Req) : EngineState :=
  rs.foldl requestPropertyChange st

/-- The source priority of the in-flight animation for a parameter, when
one exists. -/
def animSource (st : EngineState) (P : String) : Option ℕ :=
  (mapGet st.activeAnimations P).map fun a => a.request.source

/-- A keyframe of a property track (`types.ts`); `step` may be
fractional. -/
structure Keyframe where
  step : ℚ
  value : ℚ
deriving DecidableEq

/-- The keyframe-automation value computed by `_tickSequencer`
(`sequencer.slice.ts` lines 132-159) for one track at target step `s` on
a `numSteps`-step timeline: sort the keyframes by step; `prev` is the
first keyframe with `step ≤ s` (falling back to the last), `next` the
first with `step > s` (falling back to the first), with the two redundant
`every`-guards of the source; equal steps short-circuit; otherwise a
negative step difference (and, inside that branch, a negative progress)
wraps by `numSteps`, and the value is `lerp(prev.value, next.value,
progress / stepDiff)`.  `none` models the early return on an empty
track. -/
def trackValue (keyframes : List Keyframe) (s numSteps : ℚ) : Option ℚ :=
  let sorted := keyframes.insertionSort fun a b => a.step ≤ b.step
  if sorted.isEmpty then none
  else
    let prev0 := (findFirst? (fun k => k.step ≤ s) sorted).orElse
      fun _ => sorted.getLast?
    let next0 := (findFirst? (fun k => s < k.step) sorted).orElse
      fun _ => sorted.head?
    let prevK := if ∀ k ∈ sorted, s < k.step then sorted.getLast? else prev0
    let nextK := if ∀ k ∈ sorted, k.step ≤ s then sorted.head? else next0
    match prevK, nextK with
    | some p, some n =>
      if p.step = n.step then some p.value
      else
        let stepDiff := n.step - p.step
        let progress := s - p.step
        let stepDiff2 := if stepDiff < 0 then stepDiff + numSteps else stepDiff
        let progress2 :=
          if stepDiff < 0 then
            (if progress < 0 then progress + numSteps else progress)
          else progress
        some (lerp p.value n.value (progress2 / stepDiff2))
    | _, _ => none

/-- The tick rescheduling of `_tickSequencer` (`sequencer.slice.ts` lines
220-259), as the pair (delay, new `sequencerStartTime`) computed at the
end of the tick that just processed `nextStep`.  The source guards the
anchored branch with the JavaScript truthiness test
`if (sequencerStartTime)`, which is falsy for both `null` and `0`, so a
missing or zero start timestamp schedules a plain step duration and
leaves the stored timestamp as it was.  With a truthy start timestamp, a
loop wrap (`nextStep = 0`) re-anchors the start to `now` and delays a
plain step duration, and any other step delays
`max(0, startTime + nextStep * stepDuration - now)`. -/
def tickSchedule (startTime : Option ℚ) (nextStep : ℕ) (bpm now : ℚ) :
    ℚ × Option ℚ :=
  let stepDuration := 60 / bpm * 1000 / 4
  match startTime with
  | some t =>
      if t = 0 then (stepDuration, some t)
      else if nextStep = 0 then (stepDuration, some now)
      else (max 0 (t + (nextStep : ℚ) * stepDuration - now), some t)
  | none => (stepDuration, none)

/-- The persisted sequencer settings (`SequencerSettings` in `types.ts`):
the per-step pattern assignment, the BPM and the step count. -/
structure SequencerSettings where
  steps : List (Option String)
  bpm : ℚ
  numSteps : ℤ

/-- `setSequencerBpm` (`sequencer.slice.ts` lines 262-269): stores the
given BPM into the active sequence without any validation. -/
def setSequencerBpm (s : SequencerSettings) (bpm : ℚ) : SequencerSettings :=
  { s with bpm := bpm }

/-- `setSequencerNumSteps` (`sequencer.slice.ts` lines 280-295): stores
the given step count without validation and resizes the step array,
padding with `null` or truncating. -/
def setSequencerNumSteps (s : SequencerSettings) (numSteps : ℤ) :
    SequencerSettings :=
  { s with
    numSteps := numSteps
    steps :=
      if (s.steps.length : ℤ) < numSteps then
        s.steps ++ List.replicate (numSteps - s.steps.length).toNat none
      else s.steps.take numSteps.toNat }

/-- The pattern-diff value comparison of `_tickSequencer`
(`sequencer.slice.ts` lines 73-82): two arrays are compared by
`JSON.stringify`, i.e. structurally; anything else by `!==`, which on the
store's primitive values is value inequality, and is `true` against a
missing (`undefined`) base entry. -/
def valueDiffers (newV : Value) (oldV : Option Value) : Bool :=
  match newV, oldV with
  | Value.arr xs, some (Value.arr ys) => decide (¬ xs = ys)
  | v, some w => decide (¬ v = w)
  | _, none => true

/-- A pattern's `settings` object: key-value pairs in property order,
keys unique (a JavaScript object). -/
abbrev PatternSettings := List (String × Value)

/-- `baseSettings[key]` lookup. -/
def lookupS (s : PatternSettings) (k : String) : Option Value :=
  (findFirst? (fun kv => kv.1 = k) s).map Prod.snd

/-- `changedKeys` of `_tickSequencer` (`sequencer.slice.ts` lines 73-82):
the entries of the new pattern's settings whose value differs from the
base settings. -/
def changedKeys (base newS : PatternSettings) : PatternSettings :=
  filterP (fun kv => valueDiffers kv.2 (lookupS base kv.1) = true) newS

/-- The `requestPropertyChange` calls emitted for a pattern change
(`sequencer.slice.ts` lines 97-108): one request per changed key, tagged
`ControlSource.PatternSequencer` with linear interpolation. -/
def patternDiffRequests (base newS : PatternSettings)
    (interpolationSteps : ℚ) : List Req :=
  (changedKeys base newS).map fun kv =>
    { property := kv.1
      fromValue := lookupS base kv.1
      toValue := kv.2
      steps := interpolationSteps
      source := ControlSource.PatternSequencer
      interpolationType := "linear" }

/-! ### Association-list lemmas -/

theorem mapGet_nil (k : String) : mapGet [] k = none := rfl

theorem mapGet_cons (kv : String × ActiveAnimation)
    (tl : List (String × ActiveAnimation)) (k : String) :
    mapGet (kv :: tl) k = if kv.1 = k then some kv.2 else mapGet tl k := by
  by_cases h : kv.1 = k <;> simp [mapGet, findFirst?, h]

theorem mapGet_mapSet_self (m : List (String × ActiveAnimation)) (k : String)
    (v : ActiveAnimation) : mapGet (mapSet m k v) k = some v := by
  induction m with
  | nil => simp [mapSet, mapGet_cons]
  | cons kv tl ih =>
      by_cases h : kv.1 = k
      · simp [mapSet, h, mapGet_cons]
      · simp [mapSet, h, mapGet_cons, ih]

theorem mapGet_mapSet_ne (m : List (String × ActiveAnimation)) (k k' : String)
    (v : ActiveAnimation) (h : k' ≠ k) :
    mapGet (mapSet m k v) k' = mapGet m k' := by
  have hk' : ¬ k = k' := fun hh => h hh.symm
  induction m with
  | nil => simp [mapSet, mapGet_cons, mapGet_nil, hk']
  | cons kv tl ih =>
      by_cases hk : kv.1 = k
      · simp [mapSet, hk, mapGet_cons, hk']
      · simp [mapSet, hk, mapGet_cons, ih]

theorem mapGet_mapDelete_self (m : List (String × ActiveAnimation))
    (k : String) : mapGet (mapDelete m k) k = none := by
  induction m with
  | nil => rfl
  | cons kv tl ih =>
      rw [mapDelete, filterP]
      by_cases h : kv.1 = k
      · simp only [h, not_true_eq_false, if_false]
        exact ih
      · simp only [h, not_false_eq_true, if_true, mapGet_cons, if_neg h]
        exact ih

theorem mapGet_mapDelete_ne (m : List (String × ActiveAnimation))
    (k k' : String) (h : k' ≠ k) :
    mapGet (mapDelete m k) k' = mapGet m k' := by
  induction m with
  | nil => rfl
  | cons kv tl ih =>
      rw [mapDelete] at ih
      rw [mapDelete, filterP]
      by_cases hk : kv.1 = k
      · have h2 : ¬ kv.1 = k' := fun hh => h (hh ▸ hk)
        rw [if_neg (not_not_intro hk), mapGet_cons, if_neg h2]
        exact ih
      · rw [if_pos hk, mapGet_cons, mapGet_cons]
        by_cases hk' : kv.1 = k' <;> simp [hk', ih]

theorem isEmpty_false_of_mapGet (m : List (String × ActiveAnimation))
    (k : String) (a : ActiveAnimation) (h : mapGet m k = some a) :
    m.isEmpty = false := by
  cases m with
  | nil => simp [mapGet_nil] at h
  | cons kv tl => rfl

/-! ### Lemmas about one `_animationLoop` iteration -/

theorem foldl_updateS_notMem (m : List (String × ActiveAnimation))
    (f0 : String → Option Value) (P : String)
    (h : ∀ kv ∈ m, kv.1 ≠ P) :
    m.foldl (fun acc kv => updateS acc kv.1 (frameValue kv.2)) f0 P = f0 P := by
  induction m generalizing f0 with
  | nil => rfl
  | cons kv tl ih =>
      rw [List.foldl_cons, ih _ fun kv2 h2 => h kv2 (List.mem_cons_of_mem kv h2)]
      exact if_neg fun hh => h kv (List.mem_cons_self kv tl) hh.symm

theorem foldl_updateS_mem (m : List (String × ActiveAnimation))
    (f0 : String → Option Value) (P : String) (a : ActiveAnimation)
    (hnd : (m.map Prod.fst).Nodup) (hm : mapGet m P = some a) :
    m.foldl (fun acc kv => updateS acc kv.1 (frameValue kv.2)) f0 P
      = frameValue a := by
  induction m generalizing f0 with
  | nil => simp [mapGet_nil] at hm
  | cons kv tl ih =>
      rw [mapGet_cons] at hm
      rw [List.map_cons, List.nodup_cons] at hnd
      by_cases hk : kv.1 = P
      · rw [if_pos hk] at hm
        cases hm
        rw [List.foldl_cons,
          foldl_updateS_notMem tl _ P
            (fun kv2 h2 hh => hnd.1 (hk ▸ hh ▸ List.mem_map_of_mem Prod.fst h2))]
        exact if_pos hk.symm
      · rw [if_neg hk] at hm
        rw [List.foldl_cons]
        exact ih _ hnd.2 hm

theorem mapGet_advanced_notMem (m : List (String × ActiveAnimation))
    (P : String) (h : ∀ kv ∈ m, kv.1 ≠ P) :
    mapGet ((filterP (fun kv => ¬ 1 ≤ animProgress kv.2) m).map
      (fun kv => (kv.1, advanceAnim kv.2))) P = none := by
  induction m with
  | nil => rfl
  | cons kv tl ih =>
      have htl := ih fun kv2 h2 => h kv2 (List.mem_cons_of_mem kv h2)
      have hne : ¬ kv.1 = P := h kv (List.mem_cons_self kv tl)
      rw [filterP]
      by_cases hc : ¬ 1 ≤ animProgress kv.2
      · rw [if_pos hc, List.map_cons, mapGet_cons, if_neg hne]
        exact htl
      · rw [if_neg hc]
        exact htl

theorem mapGet_advanced_mem (m : List (String × ActiveAnimation))
    (P : String) (a : ActiveAnimation)
    (hnd : (m.map Prod.fst).Nodup) (hm : mapGet m P = some a) :
    mapGet ((filterP (fun kv => ¬ 1 ≤ animProgress kv.2) m).map
      (fun kv => (kv.1, advanceAnim kv.2))) P
      = if 1 ≤ animProgress a then none else some (advanceAnim a) := by
  induction m with
  | nil => simp [mapGet_nil] at hm
  | cons kv tl ih =>
      rw [mapGet_cons] at hm
      rw [List.map_cons, List.nodup_cons] at hnd
      rw [filterP]
      by_cases hk : kv.1 = P
      · rw [if_pos hk] at hm
        cases hm
        have hnm : ∀ kv2 ∈ tl, kv2.1 ≠ P :=
          fun kv2 h2 hh => hnd.1 (hk ▸ hh ▸ List.mem_map_of_mem Prod.fst h2)
        by_cases hc : 1 ≤ animProgress kv.2
        · rw [if_neg (not_not_intro hc), if_pos hc]
          exact mapGet_advanced_notMem tl P hnm
        · rw [if_pos hc, List.map_cons, mapGet_cons, if_pos hk, if_neg hc]
      · rw [if_neg hk] at hm
        by_cases hc : ¬ 1 ≤ animProgress kv.2
        · rw [if_pos hc, List.map_cons, mapGet_cons, if_neg hk]
          exact ih hnd.2 hm
        · rw [if_neg hc]
          exact ih hnd.2 hm

theorem animationLoop_settings (st : EngineState) (P : String)
    (a : ActiveAnimation)
    (hnd : (st.activeAnimations.map Prod.fst).Nodup)
    (hm : mapGet st.activeAnimations P = some a) :
    (animationLoop st).currentSettings P = frameValue a := by
  rw [animationLoop, if_neg (by simp [isEmpty_false_of_mapGet _ _ _ hm])]
  exact foldl_updateS_mem _ _ _ _ hnd hm

theorem animationLoop_anims (st : EngineState) (P : String)
    (a : ActiveAnimation)
    (hnd : (st.activeAnimations.map Prod.fst).Nodup)
    (hm : mapGet st.activeAnimations P = some a) :
    mapGet (animationLoop st).activeAnimations P
      = if 1 ≤ animProgress a then none else some (advanceAnim a) := by
  rw [animationLoop, if_neg (by simp [isEmpty_false_of_mapGet _ _ _ hm])]
  exact mapGet_advanced_mem _ _ _ hnd hm

/-! ### Lemmas about `requestPropertyChange` -/

theorem sourceBlocked_of_get (st : EngineState) (r : Req) (e : ActiveAnimation)
    (hg : mapGet st.activeAnimations r.property = some e) :
    sourceBlocked st r = decide (r.source < e.request.source) := by
  rw [sourceBlocked, hg]

theorem requestPropertyChange_blocked (st : EngineState) (r : Req)
    (e : ActiveAnimation)
    (hg : mapGet st.activeAnimations r.property = some e)
    (hlt : r.source < e.request.source) :
    requestPropertyChange st r = st := by
  rw [requestPropertyChange, if_pos]
  rw [sourceBlocked_of_get st r e hg]
  exact decide_eq_true hlt

theorem requestPropertyChange_immediate (st : EngineState) (r : Req)
    (hb : sourceBlocked st r = false) (h0 : r.steps = 0) :
    requestPropertyChange st r =
      { st with
        activeAnimations := mapDelete st.activeAnimations r.property
        currentSettings :=
          updateS st.currentSettings r.property (some r.toValue) } := by
  rw [requestPropertyChange, if_neg (by simp [hb]), if_pos h0]

theorem requestPropertyChange_animated (st : EngineState) (r : Req)
    (hb : sourceBlocked st r = false) (h0 : ¬ r.steps = 0)
    (hne : st.activeAnimations.isEmpty = false) :
    requestPropertyChange st r =
      { st with
        activeAnimations :=
          mapSet st.activeAnimations r.property (mkAnimation st r) } := by
  rw [requestPropertyChange, if_neg (by simp [hb]), if_neg h0]
  simp only [hne, Bool.false_eq_true, if_false]

theorem requestPropertyChange_source_mono (st : EngineState) (r : Req)
    (P : String) (a b : ActiveAnimation)
    (h1 : mapGet st.activeAnimations P = some a)
    (h2 : mapGet (requestPropertyChange st r).activeAnimations P = some b) :
    a.request.source ≤ b.request.source := by
  have hne : st.activeAnimations.isEmpty = false :=
    isEmpty_false_of_mapGet _ _ _ h1
  by_cases hb : sourceBlocked st r = true
  · rw [requestPropertyChange, if_pos hb] at h2
    rw [h1] at h2
    cases h2
    exact le_refl _
  · have hb' : sourceBlocked st r = false := by
      cases hq : sourceBlocked st r
      · rfl
      · exact absurd hq hb
    by_cases h0 : r.steps = 0
    · rw [requestPropertyChange_immediate st r hb' h0] at h2
      by_cases hp : r.property = P
      · rw [hp] at h2
        rw [mapGet_mapDelete_self] at h2
        cases h2
      · rw [mapGet_mapDelete_ne _ _ _ (fun hh => hp hh.symm), h1] at h2
        cases h2
        exact le_refl _
    · rw [requestPropertyChange_animated st r hb' h0 hne] at h2
      by_cases hp : r.property = P
      · rw [hp] at h2
        rw [mapGet_mapSet_self] at h2
        have hsrc : ¬ r.source < a.request.source := by
          have := sourceBlocked_of_get st r a (hp ▸ h1)
          rw [hb'] at this
          exact of_decide_eq_false this.symm
        cases h2
        exact le_of_not_lt hsrc
      · rw [mapGet_mapSet_ne _ _ _ _ (fun hh => hp hh.symm), h1] at h2
        cases h2
        exact le_refl _

theorem applyReqs_cons (st : EngineState) (r : Req) (rs : List Req) :
    applyReqs st (r :: rs) = applyReqs (requestPropertyChange st r) rs := rfl

theorem applyReqs_source_mono (rs : List Req) (st : EngineState) (P : String)
    (a b : ActiveAnimation)
    (h1 : mapGet st.activeAnimations P = some a)
    (hmid : ∀ i, (mapGet (applyReqs st (rs.take i)).activeAnimations P).isSome
      = true)
    (h2 : mapGet (applyReqs st rs).activeAnimations P = some b) :
    a.request.source ≤ b.request.source := by
  induction rs generalizing st a with
  | nil =>
      rw [show applyReqs st [] = st from rfl, h1] at h2
      cases h2
      exact le_refl _
  | cons r tl ih =>
      have hstep := hmid 1
      rw [show (r :: tl).take 1 = [r] from rfl] at hstep
      rw [show applyReqs st [r] = requestPropertyChange st r from rfl] at hstep
      cases hc : mapGet (requestPropertyChange st r).activeAnimations P with
      | none => rw [hc] at hstep; simp at hstep
      | some c =>
          have hac := requestPropertyChange_source_mono st r P a c h1 hc
          have hcb : c.request.source ≤ b.request.source := by
            refine ih (requestPropertyChange st r) c hc (fun i => ?_) ?_
            · have := hmid (i + 1)
              rw [List.take_succ_cons, applyReqs_cons] at this
              exact this
            · rw [applyReqs_cons] at h2
              exact h2
          exact le_trans hac hcb

/-! ### Lemmas about the pattern diff -/

theorem filterP_append {α : Type} (p : α → Prop) [DecidablePred p]
    (l1 l2 : List α) : filterP p (l1 ++ l2) = filterP p l1 ++ filterP p l2 := by
  induction l1 with
  | nil => rfl
  | cons a tl ih =>
      rw [List.cons_append, filterP, filterP]
      by_cases h : p a
      · rw [if_pos h, if_pos h, ih, List.cons_append]
      · rw [if_neg h, if_neg h, ih]

theorem mem_of_mem_filterP {α : Type} (p : α → Prop) [DecidablePred p]
    (l : List α) (a : α) (h : a ∈ filterP p l) : a ∈ l ∧ p a := by
  induction l with
  | nil => simp [filterP] at h
  | cons b tl ih =>
      rw [filterP] at h
      by_cases hb : p b
      · rw [if_pos hb] at h
        rcases List.mem_cons.1 h with h1 | h2
        · exact ⟨h1 ▸ List.mem_cons_self _ _, h1 ▸ hb⟩
        · exact ⟨List.mem_cons_of_mem _ (ih h2).1, (ih h2).2⟩
      · rw [if_neg hb] at h
        exact ⟨List.mem_cons_of_mem _ (ih h).1, (ih h).2⟩

/-- The number of requests in a list aimed at a given parameter. -/
def reqCountFor (rs : List Req) (k : String) : ℕ :=
  (filterP (fun r => r.property = k) rs).length

theorem patternDiffRequests_cons (base : PatternSettings) (kv : String × Value)
    (tl : PatternSettings) (steps : ℚ) :
    patternDiffRequests base (kv :: tl) steps =
      patternDiffRequests base [kv] steps ++ patternDiffRequests base tl steps := by
  rw [patternDiffRequests, patternDiffRequests, patternDiffRequests,
    changedKeys, changedKeys, changedKeys, filterP, filterP]
  by_cases h : valueDiffers kv.2 (lookupS base kv.1) = true
  · rw [if_pos h, if_pos h, List.map_cons, List.map_cons]
    rfl
  · rw [if_neg h, if_neg h]
    rfl

theorem patternDiffRequests_single_mem (base : PatternSettings)
    (kv : String × Value) (steps : ℚ) (r : Req)
    (h : r ∈ patternDiffRequests base [kv] steps) :
    r = { property := kv.1
          fromValue := lookupS base kv.1
          toValue := kv.2
          steps := steps
          source := ControlSource.PatternSequencer
          interpolationType := "linear" }
      ∧ valueDiffers kv.2 (lookupS base kv.1) = true := by
  rw [patternDiffRequests, changedKeys, filterP] at h
  by_cases hd : valueDiffers kv.2 (lookupS base kv.1) = true
  · rw [if_pos hd] at h
    rw [show filterP (fun kv2 => valueDiffers kv2.2 (lookupS base kv2.1) = true)
      ([] : PatternSettings) = [] from rfl] at h
    rw [List.map_cons] at h
    rcases List.mem_cons.1 h with h1 | h2
    · exact ⟨h1, hd⟩
    · simp at h2
  · rw [if_neg hd] at h
    simp [filterP] at h

theorem patternDiffRequests_property_mem (base newS : PatternSettings)
    (steps : ℚ) (r : Req) (h : r ∈ patternDiffRequests base newS steps) :
    r.property ∈ newS.map Prod.fst := by
  induction newS with
  | nil => simp [patternDiffRequests, changedKeys, filterP] at h
  | cons kv tl ih =>
      rw [patternDiffRequests_cons] at h
      rcases List.mem_append.1 h with h1 | h2
      · rw [(patternDiffRequests_single_mem base kv steps r h1).1]
        exact List.mem_cons_self _ _
      · exact List.mem_cons_of_mem _ (ih h2)

theorem reqCountFor_zero_of_not_mem (base newS : PatternSettings) (steps : ℚ)
    (k : String) (h : k ∉ newS.map Prod.fst) :
    reqCountFor (patternDiffRequests base newS steps) k = 0 := by
  rw [reqCountFor]
  cases hf : filterP (fun r => r.property = k)
      (patternDiffRequests base newS steps) with
  | nil => rfl
  | cons r tl =>
      exfalso
      have hr : r ∈ filterP (fun r => r.property = k)
          (patternDiffRequests base newS steps) := by
        rw [hf]
        exact List.mem_cons_self _ _
      have hmem := mem_of_mem_filterP _ _ _ hr
      exact h (hmem.2 ▸ patternDiffRequests_property_mem base newS steps r hmem.1)

theorem reqCountFor_single_self (base : PatternSettings) (kv : String × Value)
    (steps : ℚ) :
    reqCountFor (patternDiffRequests base [kv] steps) kv.1
      = if valueDiffers kv.2 (lookupS base kv.1) = true then 1 else 0 := by
  rw [reqCountFor, patternDiffRequests, changedKeys, filterP]
  by_cases hd : valueDiffers kv.2 (lookupS base kv.1) = true
  · rw [if_pos hd, if_pos hd]
    rw [show filterP (fun kv2 => valueDiffers kv2.2 (lookupS base kv2.1) = true)
      ([] : PatternSettings) = [] from rfl, List.map_cons]
    rw [show (List.map _ ([] : PatternSettings) : List Req) = [] from rfl]
    rw [filterP, if_pos rfl]
    rfl
  · rw [if_neg hd, if_neg hd]
    rfl

theorem reqCountFor_single_ne (base : PatternSettings) (kv : String × Value)
    (steps : ℚ) (k : String) (h : ¬ kv.1 = k) :
    reqCountFor (patternDiffRequests base [kv] steps) k = 0 := by
  rw [reqCountFor, patternDiffRequests, changedKeys, filterP]
  by_cases hd : valueDiffers kv.2 (lookupS base kv.1) = true
  · rw [if_pos hd]
    rw [show filterP (fun kv2 => valueDiffers kv2.2 (lookupS base kv2.1) = true)
      ([] : PatternSettings) = [] from rfl, List.map_cons]
    rw [show (List.map _ ([] : PatternSettings) : List Req) = [] from rfl]
    rw [filterP, if_neg h]
    rfl
  · rw [if_neg hd]
    rfl

theorem patternDiffRequests_count (base newS : PatternSettings) (steps : ℚ)
    (hnd : (newS.map Prod.fst).Nodup) (kv : String × Value) (hkv : kv ∈ newS) :
    reqCountFor (patternDiffRequests base newS steps) kv.1
      = if valueDiffers kv.2 (lookupS base kv.1) = true then 1 else 0 := by
  induction newS with
  | nil => cases hkv
  | cons hd tl ih =>
      rw [List.map_cons, List.nodup_cons] at hnd
      rw [patternDiffRequests_cons, reqCountFor, filterP_append,
        List.length_append]
      rcases List.mem_cons.1 hkv with h1 | h2
      · cases h1
        have htl := reqCountFor_zero_of_not_mem base tl steps kv.1 hnd.1
        rw [reqCountFor] at htl
        rw [htl, Nat.add_zero]
        exact reqCountFor_single_self base kv steps
      · have hne : ¬ hd.1 = kv.1 := by
          intro hh
          exact hnd.1 (hh ▸ List.mem_map_of_mem Prod.fst h2)
        have hh := reqCountFor_single_ne base hd steps kv.1 hne
        rw [reqCountFor] at hh
        rw [hh, Nat.zero_add]
        exact ih hnd.2 h2

theorem patternDiffRequests_source_tag (base newS : PatternSettings)
    (steps : ℚ) (r : Req) (h : r ∈ patternDiffRequests base newS steps) :
    r.source = ControlSource.PatternSequencer ∧
      r.interpolationType = "linear" := by
  induction newS with
  | nil => simp [patternDiffRequests, changedKeys, filterP] at h
  | cons kv tl ih =>
      rw [patternDiffRequests_cons] at h
      rcases List.mem_append.1 h with h1 | h2
      · rw [(patternDiffRequests_single_mem base kv steps r h1).1]
        exact ⟨rfl, rfl⟩
      · exact ih h2

/-! ### Claim theorems -/

/-- C3: on a 16-step timeline, a track with exactly the keyframes
`{step 14, value 0}` and `{step 2, value 10}` interpolates through the
loop boundary at step 0: `t = (0 + 16 - 14) / (2 + 16 - 14) = 1/2`, so
the automation value is `5`. -/
theorem c3_circular_wraparound :
    trackValue [⟨14, 0⟩, ⟨2, 10⟩] 0 16 = some 5 := by
  norm_num [trackValue, List.insertionSort, List.orderedInsert, findFirst?,
    lerp]

/-- C4: the claimed neighbor selection fails on the code.  At step 5 of a
16-step timeline with keyframes at steps 1, 3 and 7, `_tickSequencer`
picks `prev` as the *first* keyframe with `step ≤ 5` — the keyframe at
step 1, not the adjacent keyframe at step 3 — and interpolates
`lerp(0, 10, (5-1)/(7-1)) = 20/3`; the result is unchanged when the
adjacent step-3 keyframe's value changes from 100 to 55, so the
interpolated value does not depend only on the two keyframes adjacent to
the target step.  The claimed pair (steps 3 and 7) would give 55. -/
theorem c4_prev_selection_ignores_adjacent_keyframe :
    trackValue [⟨1, 0⟩, ⟨3, 100⟩, ⟨7, 10⟩] 5 16 = some (20 / 3) ∧
    trackValue [⟨1, 0⟩, ⟨3, 55⟩, ⟨7, 10⟩] 5 16 = some (20 / 3) ∧
    (20 / 3 : ℚ) ≠ 55 := by
  refine ⟨?_, ?_, by norm_num⟩ <;>
    norm_num [trackValue, List.insertionSort, List.orderedInsert, findFirst?,
      lerp]

/-- C5: the reschedule of `_tickSequencer` is not the claimed
drift-corrected delay.  At 120 BPM (`stepDuration = 125`), with the loop
anchored at time 1000, the tick that processed step 1 at `now = 1125`
computes `delay = max(0, 1000 + 1*125 - 1125) = 0`, while the claimed
formula
`max(0, startTimestamp + (loopCount*stepCount + nextStep + 1)*stepDuration - now)`
gives 125; and the tick that processes step 0 of a new loop (here at
`now = 11000`) ignores the anchored ideal entirely — it delays a plain
step duration and re-anchors `sequencerStartTime` to `now`, so jitter at
every loop wrap is absorbed into the new anchor instead of being
corrected. -/
theorem c5_reschedule_not_anchored :
    (tickSchedule (some 1000) 1 120 1125).1 = 0 ∧
    (tickSchedule (some 1000) 1 120 1125).1
      ≠ max 0 ((1000 + (0 * 16 + 1 + 1) * 125 : ℚ) - 1125) ∧
    (tickSchedule (some 1000) 0 120 11000).1 = 125 ∧
    (tickSchedule (some 1000) 0 120 11000).2 = some 11000 := by
  refine ⟨?_, ?_, ?_, ?_⟩ <;> norm_num [tickSchedule, max_def]

/-- The sequencer settings used to exhibit the missing validation of C9. -/
def s0C9 : SequencerSettings :=
  { steps := List.replicate 16 none, bpm := 120, numSteps := 16 }

/-- C9: `setSequencerBpm` and `setSequencerNumSteps` do not reject
non-positive values: calling them with `0` on a sequencer with
`bpm = 120`, `numSteps = 16` stores `bpm = 0` and `numSteps = 0` instead
of leaving the settings unchanged. -/
theorem c9_setters_store_nonpositive_values :
    s0C9.bpm = 120 ∧ (setSequencerBpm s0C9 0).bpm = 0 ∧
    s0C9.numSteps = 16 ∧ (setSequencerNumSteps s0C9 0).numSteps = 0 := by
  refine ⟨rfl, rfl, rfl, rfl⟩

theorem updateS_self (f : String → Option Value) (k : String)
    (v : Option Value) : updateS f k v k = v := if_pos rfl

/-- C6: for an in-flight animation over numeric scalar values with linear
interpolation, the advance that brings `currentFrame` to `totalFrames`
makes progress exactly 1, writes `lerp(from, to, 1) = to` — exact over
the rational embedding of JavaScript numbers — into resolved state, and
removes the completed animation from the arbiter's table in that same
advance. -/
theorem c6_completion_exact (st : EngineState) (P : String)
    (a : ActiveAnimation) (x y : ℚ)
    (hnd : (st.activeAnimations.map Prod.fst).Nodup)
    (hm : mapGet st.activeAnimations P = some a)
    (hx : a.request.fromValue = some (Value.num x))
    (hy : a.request.toValue = Value.num y)
    (hl : a.request.interpolationType = "linear")
    (hf : a.currentFrame + 1 = a.totalFrames)
    (hpos : 0 < a.totalFrames) :
    (animationLoop st).currentSettings P = some (Value.num y) ∧
    mapGet (animationLoop st).activeAnimations P = none := by
  have hprog : animProgress a = 1 := by
    rw [animProgress]
    have h1 : ((a.currentFrame : ℚ) + 1) = (a.totalFrames : ℚ) := by
      exact_mod_cast congrArg (fun n : ℕ => (n : ℚ)) hf
    have h2 : (a.totalFrames : ℚ) ≠ 0 := by
      exact_mod_cast Nat.pos_iff_ne_zero.1 hpos
    rw [h1, div_self h2, min_self]
  have hlerp : lerp x y 1 = y := by
    rw [lerp]
    ring
  have hfv : frameValue a = some (Value.num y) := by
    rw [frameValue, if_pos hl, hx, hy, hprog]
    simp [hlerp]
  refine ⟨?_, ?_⟩
  · rw [animationLoop_settings st P a hnd hm, hfv]
  · rw [animationLoop_anims st P a hnd hm, hprog, if_pos (le_refl 1)]

/-- The mid-flight numeric animation used as C6's witness. -/
def aC6 : ActiveAnimation :=
  { request :=
      { property := "x", fromValue := some (Value.num 3)
        toValue := Value.num 7, steps := 1, source := ControlSource.UI
        interpolationType := "linear" }
    currentFrame := 31, totalFrames := 32, startValue := some (Value.num 3) }

/-- The engine state used as C6's witness. -/
def stC6 : EngineState :=
  { currentSettings := fun _ => some (Value.num 3)
    activeAnimations := [("x", aC6)]
    bpm := 120 }

/-- Witness for C6 at a concrete completing animation. -/
theorem c6_witness :
    (animationLoop stC6).currentSettings "x" = some (Value.num 7) ∧
    mapGet (animationLoop stC6).activeAnimations "x" = none :=
  c6_completion_exact stC6 "x" aC6 3 7 (by simp [stC6])
    (by norm_num [stC6, mapGet, findFirst?]) rfl rfl rfl rfl (by norm_num [aC6])

/-- C10: for an in-flight animation whose `interpolationType` is not
`"linear"`, one advance of `_animationLoop` assigns no interpolated value
— the local `newValue` stays `undefined` — and writes `undefined` into
resolved state for that parameter; the animation is removed in that
advance exactly when its progress reached 1, and otherwise stays with its
frame incremented, so `undefined` is written on every frame until
completion. -/
theorem c10_nonlinear_writes_undefined (st : EngineState) (P : String)
    (a : ActiveAnimation)
    (hnd : (st.activeAnimations.map Prod.fst).Nodup)
    (hm : mapGet st.activeAnimations P = some a)
    (hne : ¬ a.request.interpolationType = "linear") :
    (animationLoop st).currentSettings P = none ∧
    mapGet (animationLoop st).activeAnimations P
      = if 1 ≤ animProgress a then none else some (advanceAnim a) := by
  have hfv : frameValue a = none := by
    rw [frameValue, if_neg hne]
  exact ⟨by rw [animationLoop_settings st P a hnd hm, hfv],
    animationLoop_anims st P a hnd hm⟩

/-- The non-linear animation used as C10's witness. -/
def aC10 : ActiveAnimation :=
  { request :=
      { property := "x", fromValue := some (Value.num 3)
        toValue := Value.num 7, steps := 1, source := ControlSource.UI
        interpolationType := "ease" }
    currentFrame := 0, totalFrames := 10, startValue := some (Value.num 3) }

/-- The engine state used as C10's witness. -/
def stC10 : EngineState :=
  { currentSettings := fun _ => some (Value.num 3)
    activeAnimations := [("x", aC10)]
    bpm := 120 }

/-- Witness for C10 at a concrete non-linear animation. -/
theorem c10_witness :
    (animationLoop stC10).currentSettings "x" = none ∧
    mapGet (animationLoop stC10).activeAnimations "x"
      = if 1 ≤ animProgress aC10 then none else some (advanceAnim aC10) :=
  c10_nonlinear_writes_undefined stC10 "x" aC10 (by simp [stC10])
    (by norm_num [stC10, mapGet, findFirst?]) (by simp [aC10])

/-- C7 (amended): for an in-flight linear animation whose value pair is
not numeric-to-numeric (color-stop lists, strings, mixed shapes), every
advance of `_animationLoop` writes `toValue` into resolved state — from
the very first frame, not only once progress reaches 1. -/
theorem c7_nonnumeric_snaps_immediately (st : EngineState) (P : String)
    (a : ActiveAnimation)
    (hnd : (st.activeAnimations.map Prod.fst).Nodup)
    (hm : mapGet st.activeAnimations P = some a)
    (hl : a.request.interpolationType = "linear")
    (hnn : ∀ x y : ℚ, ¬ (a.request.fromValue = some (Value.num x) ∧
      a.request.toValue = Value.num y)) :
    (animationLoop st).currentSettings P = some a.request.toValue := by
  have hfv : frameValue a = some a.request.toValue := by
    rw [frameValue, if_pos hl]
    cases hx : a.request.fromValue with
    | none => cases hy : a.request.toValue <;> simp
    | some v =>
        cases v with
        | num x =>
            cases hy : a.request.toValue with
            | num y => exact absurd ⟨hx, hy⟩ (hnn x y)
            | str s => simp
            | arr c => simp
        | str s => cases hy : a.request.toValue <;> simp
        | arr c => cases hy : a.request.toValue <;> simp
  rw [animationLoop_settings st P a hnd hm, hfv]

/-- The first color stop used in C7's concrete states. -/
def gcA : GradientColor := { id := "1", color := "#000000", hardStop := false }

/-- The second color stop used in C7's concrete states. -/
def gcB : GradientColor := { id := "2", color := "#ffffff", hardStop := false }

/-- A mid-flight gradient animation: 10 frames, none elapsed. -/
def aC7 : ActiveAnimation :=
  { request :=
      { property := "g", fromValue := some (Value.arr [gcA])
        toValue := Value.arr [gcB], steps := 1, source := ControlSource.UI
        interpolationType := "linear" }
    currentFrame := 0, totalFrames := 10
    startValue := some (Value.arr [gcA]) }

/-- The engine state holding `aC7`. -/
def stC7 : EngineState :=
  { currentSettings := fun _ => some (Value.arr [gcA])
    activeAnimations := [("g", aC7)]
    bpm := 120 }

/-- Counterexample for C7 as claimed: on a frame where the gradient
animation's progress is 1/10 < 1, the advance already writes `toValue`
into resolved state (the old value was different), and the animation is
still in flight — so an intermediate frame does expose `toValue`. -/
theorem c7_counterexample :
    animProgress aC7 < 1 ∧
    stC7.currentSettings "g" ≠ some aC7.request.toValue ∧
    (animationLoop stC7).currentSettings "g" = some aC7.request.toValue ∧
    mapGet (animationLoop stC7).activeAnimations "g"
      = some (advanceAnim aC7) := by
  refine ⟨?_, ?_, ?_, ?_⟩
  · norm_num [animProgress, aC7, min_def]
  · simp [stC7, aC7, gcA, gcB]
  · rw [animationLoop_settings stC7 "g" aC7 (by simp [stC7])
      (by norm_num [stC7, mapGet, findFirst?])]
    rw [frameValue]
    norm_num [aC7]
  · rw [animationLoop_anims stC7 "g" aC7 (by simp [stC7])
      (by norm_num [stC7, mapGet, findFirst?])]
    rw [if_neg]
    norm_num [animProgress, aC7, min_def]

/-- Witness for C7's amended theorem at a concrete string animation. -/
theorem c7_witness :
    (animationLoop stC7).currentSettings "g" = some (Value.arr [gcB]) :=
  c7_nonnumeric_snaps_immediately stC7 "g" aC7 (by simp [stC7])
    (by norm_num [stC7, mapGet, findFirst?]) rfl
    (fun x y h => by simp [aC7] at h)

/-- C2 (amended): an immediate (`steps = 0`) request sets the resolved
value to `toValue` and deletes any in-flight animation for the parameter,
provided no in-flight animation for that parameter has a strictly higher
source priority — the priority gate runs before the immediate branch. -/
theorem c2_immediate_write_wins_or_ties (st : EngineState) (r : Req)
    (h0 : r.steps = 0)
    (h1 : ∀ e, mapGet st.activeAnimations r.property = some e →
      e.request.source ≤ r.source) :
    (requestPropertyChange st r).currentSettings r.property = some r.toValue ∧
    mapGet (requestPropertyChange st r).activeAnimations r.property
      = none := by
  have hb : sourceBlocked st r = false := by
    rw [sourceBlocked]
    cases hg : mapGet st.activeAnimations r.property with
    | none => rfl
    | some e => exact decide_eq_false (Nat.not_lt.2 (h1 e hg))
  rw [requestPropertyChange_immediate st r hb h0]
  exact ⟨updateS_self _ _ _, mapGet_mapDelete_self _ _⟩

/-- The in-flight MIDI-priority animation used by C2's concrete states. -/
def aC2 : ActiveAnimation :=
  { request :=
      { property := "x", fromValue := some (Value.num 0)
        toValue := Value.num 9, steps := 4, source := ControlSource.MIDI
        interpolationType := "linear" }
    currentFrame := 0, totalFrames := 32, startValue := some (Value.num 0) }

/-- The engine state holding `aC2`, with resolved value 0 for `"x"`. -/
def stC2 : EngineState :=
  { currentSettings := fun _ => some (Value.num 0)
    activeAnimations := [("x", aC2)]
    bpm := 120 }

/-- A pattern-sequencer immediate request for `"x"` with value 5. -/
def rC2 : Req :=
  { property := "x", fromValue := none, toValue := Value.num 5, steps := 0
    source := ControlSource.PatternSequencer, interpolationType := "linear" }

/-- Counterexample for C2 as claimed: an immediate request from a
lower-priority source than the in-flight animation's is dropped — the
resolved value stays 0, not the request's 5, and the animation is not
deleted — so `requestChange(P, _, v, 0, S, _)` does not leave
`resolved(P) = v` regardless of prior state. -/
theorem c2_counterexample :
    rC2.steps = 0 ∧
    (requestPropertyChange stC2 rC2).currentSettings "x" ≠ some rC2.toValue ∧
    mapGet (requestPropertyChange stC2 rC2).activeAnimations "x"
      = some aC2 := by
  have hb := requestPropertyChange_blocked stC2 rC2 aC2
    (by norm_num [stC2, mapGet, findFirst?, rC2])
    (by norm_num [rC2, aC2, ControlSource.PatternSequencer, ControlSource.MIDI])
  rw [hb]
  refine ⟨rfl, ?_, by norm_num [stC2, mapGet, findFirst?]⟩
  simp [stC2, rC2]

/-- An immediate UI request for `"x"` with value 5, outranking `aC2l`. -/
def rC2w : Req :=
  { property := "x", fromValue := none, toValue := Value.num 5, steps := 0
    source := ControlSource.UI, interpolationType := "linear" }

/-- The in-flight pattern-sequencer animation used by C2's witness. -/
def aC2l : ActiveAnimation :=
  { request :=
      { property := "x", fromValue := some (Value.num 0)
        toValue := Value.num 9, steps := 4
        source := ControlSource.PatternSequencer
        interpolationType := "linear" }
    currentFrame := 0, totalFrames := 32, startValue := some (Value.num 0) }

/-- The engine state holding `aC2l`. -/
def stC2w : EngineState :=
  { currentSettings := fun _ => some (Value.num 0)
    activeAnimations := [("x", aC2l)]
    bpm := 120 }

/-- Witness for C2's amended theorem: a UI immediate request over a
pattern-sequencer animation writes 5 and empties the slot. -/
theorem c2_witness :
    (requestPropertyChange stC2w rC2w).currentSettings rC2w.property
      = some rC2w.toValue ∧
    mapGet (requestPropertyChange stC2w rC2w).activeAnimations rC2w.property
      = none :=
  c2_immediate_write_wins_or_ties stC2w rC2w rfl
    (fun e he => by
      norm_num [stC2w, mapGet, findFirst?, rC2w] at he
      rw [← he]
      norm_num [aC2l, rC2w, ControlSource.PatternSequencer, ControlSource.UI])

/-- C1 (amended): for any parameter with an in-flight animation,
(1) a request with strictly lower source priority leaves the whole state
unchanged — no observable effect; (2) a request with greater-or-equal
priority replaces the table entry: it is deleted for an immediate request
and replaced by the fresh animation otherwise; (3) across any sequence of
requests, as long as an animation for the parameter remains in flight
after every request of the sequence, its source priority is
non-decreasing.  (If a winning immediate request empties the slot, a
later animation may start at any priority.) -/
theorem c1_priority_arbitration (st : EngineState) (P : String)
    (e : ActiveAnimation)
    (he : mapGet st.activeAnimations P = some e) :
    (∀ r : Req, r.property = P → r.source < e.request.source →
      requestPropertyChange st r = st) ∧
    (∀ r : Req, r.property = P → e.request.source ≤ r.source →
      mapGet (requestPropertyChange st r).activeAnimations P =
        if r.steps = 0 then none else some (mkAnimation st r)) ∧
    (∀ (rs : List Req) (b : ActiveAnimation),
      (∀ i : ℕ,
        (mapGet (applyReqs st (rs.take i)).activeAnimations P).isSome
          = true) →
      mapGet (applyReqs st rs).activeAnimations P = some b →
      e.request.source ≤ b.request.source) := by
  refine ⟨?_, ?_, ?_⟩
  · intro r hp hlt
    exact requestPropertyChange_blocked st r e (hp.symm ▸ he) hlt
  · intro r hp hle
    have hb : sourceBlocked st r = false := by
      rw [sourceBlocked_of_get st r e (hp.symm ▸ he)]
      exact decide_eq_false (Nat.not_lt.2 hle)
    by_cases h0 : r.steps = 0
    · rw [if_pos h0, requestPropertyChange_immediate st r hb h0]
      rw [← hp]
      exact mapGet_mapDelete_self _ _
    · rw [if_neg h0, requestPropertyChange_animated st r hb h0
        (isEmpty_false_of_mapGet _ _ _ he)]
      rw [← hp]
      exact mapGet_mapSet_self _ _ _
  · intro rs b hmid h2
    exact applyReqs_source_mono rs st P e b he hmid h2

/-- `totalFrames` at 120 BPM for a 4-step animation: 32 frames. -/
theorem totalFramesOf_120_4 : totalFramesOf 120 4 = 32 := by
  norm_num [totalFramesOf, framesPerStepOf, jsRound]
  decide

/-- The in-flight UI-priority animation used by C1's concrete states. -/
def aC1 : ActiveAnimation :=
  { request :=
      { property := "x", fromValue := some (Value.num 0)
        toValue := Value.num 9, steps := 4, source := ControlSource.UI
        interpolationType := "linear" }
    currentFrame := 0, totalFrames := 32, startValue := some (Value.num 0) }

/-- The engine state holding `aC1`. -/
def stC1 : EngineState :=
  { currentSettings := fun _ => some (Value.num 0)
    activeAnimations := [("x", aC1)]
    bpm := 120 }

/-- A MIDI-priority immediate request for `"x"`. -/
def rC1hi : Req :=
  { property := "x", fromValue := none, toValue := Value.num 1, steps := 0
    source := ControlSource.MIDI, interpolationType := "linear" }

/-- A pattern-sequencer animated request for `"x"`. -/
def rC1lo : Req :=
  { property := "x", fromValue := none, toValue := Value.num 2, steps := 4
    source := ControlSource.PatternSequencer, interpolationType := "linear" }

/-- A MIDI-priority animated request for `"x"`. -/
def rC1s : Req :=
  { property := "x", fromValue := none, toValue := Value.num 3, steps := 4
    source := ControlSource.MIDI, interpolationType := "linear" }

/-- Counterexample for C1's monotonicity clause as claimed: starting from
a UI-priority (2) in-flight animation, the sequence [winning MIDI
immediate request, pattern-sequencer animated request] contains no
explicit cancellation, yet ends with an in-flight animation of priority
0 < 2: the immediate request emptied the slot, and the low-priority
request then started fresh. -/
theorem c1_counterexample :
    animSource stC1 "x" = some ControlSource.UI ∧
    animSource (applyReqs stC1 [rC1hi, rC1lo]) "x"
      = some ControlSource.PatternSequencer ∧
    ControlSource.PatternSequencer < ControlSource.UI := by
  refine ⟨by norm_num [animSource, stC1, mapGet, findFirst?, aC1], ?_,
    by norm_num [ControlSource.PatternSequencer, ControlSource.UI]⟩
  norm_num [animSource, applyReqs, requestPropertyChange, sourceBlocked,
    stC1, aC1, rC1hi, rC1lo, mapGet, mapSet, mapDelete, filterP, findFirst?,
    ControlSource.UI, ControlSource.MIDI, ControlSource.PatternSequencer,
    mkAnimation, animationLoop, animProgress, advanceAnim, frameValue,
    totalFramesOf_120_4, updateS, lerp, min_def]

/-- Witness for C1's amended theorem: with the UI animation in flight, a
lower-priority request is a no-op; a winning immediate request empties
the slot; and over the one-request sequence [MIDI animated request] the
in-flight priority is non-decreasing (2 ≤ 3). -/
theorem c1_witness :
    requestPropertyChange stC1 rC1lo = stC1 ∧
    mapGet (requestPropertyChange stC1 rC1hi).activeAnimations "x"
      = (if rC1hi.steps = 0 then none else some (mkAnimation stC1 rC1hi)) ∧
    aC1.request.source ≤ (mkAnimation stC1 rC1s).request.source := by
  have h := c1_priority_arbitration stC1 "x" aC1
    (by norm_num [stC1, mapGet, findFirst?])
  refine ⟨h.1 rC1lo rfl (by norm_num [rC1lo, aC1, ControlSource.UI,
      ControlSource.PatternSequencer]),
    h.2.1 rC1hi rfl (by norm_num [rC1hi, aC1, ControlSource.UI,
      ControlSource.MIDI]), ?_⟩
  have hafter : mapGet (applyReqs stC1 [rC1s]).activeAnimations "x"
      = some (mkAnimation stC1 rC1s) := by
    rw [show applyReqs stC1 [rC1s] = requestPropertyChange stC1 rC1s from rfl]
    rw [requestPropertyChange_animated stC1 rC1s
      (by norm_num [sourceBlocked, stC1, mapGet, findFirst?, rC1s, aC1,
        ControlSource.UI, ControlSource.MIDI])
      (by norm_num [rC1s]) rfl]
    exact mapGet_mapSet_self _ _ _
  refine h.2.2 [rC1s] (mkAnimation stC1 rC1s) (fun i => ?_) hafter
  cases i with
  | zero =>
      norm_num [applyReqs, stC1, mapGet, findFirst?]
  | succ n =>
      rw [show ([rC1s].take (n + 1)) = [rC1s] from by
        rw [List.take_succ_cons, List.take_nil]]
      rw [hafter]
      rfl

/-- C8: when a tick loads a different pattern, the emitted request list
contains exactly one request for every parameter of the new pattern
whose value differs from the base settings (arrays compared structurally
via the `JSON.stringify` branch), zero requests for a parameter whose
value is unchanged, zero requests for any parameter outside the new
pattern, and every emitted request is tagged
`ControlSource.PatternSequencer`. -/
theorem c8_pattern_diff_minimality (base newS : PatternSettings) (steps : ℚ)
    (hnd : (newS.map Prod.fst).Nodup) :
    (∀ kv ∈ newS,
      reqCountFor (patternDiffRequests base newS steps) kv.1
        = if valueDiffers kv.2 (lookupS base kv.1) = true then 1 else 0) ∧
    (∀ k : String, k ∉ newS.map Prod.fst →
      reqCountFor (patternDiffRequests base newS steps) k = 0) ∧
    (∀ r ∈ patternDiffRequests base newS steps,
      r.source = ControlSource.PatternSequencer) :=
  ⟨fun kv hkv => patternDiffRequests_count base newS steps hnd kv hkv,
    fun k hk => reqCountFor_zero_of_not_mem base newS steps k hk,
    fun r hr => (patternDiffRequests_source_tag base newS steps r hr).1⟩

/-- The previously loaded pattern's settings in C8's witness. -/
def baseC8 : PatternSettings :=
  [("scaleSize", Value.num 100), ("shapeMorph", Value.num 0)]

/-- The newly loaded pattern's settings in C8's witness: only
`scaleSize` differs. -/
def newC8 : PatternSettings :=
  [("scaleSize", Value.num 200), ("shapeMorph", Value.num 0)]

/-- Witness for C8: a pattern change where only `scaleSize` differs
emits exactly one request for `scaleSize` and none for `shapeMorph`. -/
theorem c8_witness :
    reqCountFor (patternDiffRequests baseC8 newC8 2) "scaleSize" = 1 ∧
    reqCountFor (patternDiffRequests baseC8 newC8 2) "shapeMorph" = 0 := by
  have h := c8_pattern_diff_minimality baseC8 newC8 2 (by
    norm_num [newC8]
    decide)
  constructor
  · have h1 := h.1 ("scaleSize", Value.num 200)
      (by rw [newC8]; exact List.mem_cons_self _ _)
    rw [if_pos (by decide)] at h1
    exact h1
  · have h2 := h.1 ("shapeMorph", Value.num 0)
      (by rw [newC8]; exact List.mem_cons_of_mem _ (List.mem_cons_self _ _))
    rw [if_neg (by decide)] at h2
    exact h2
